import Mathlib

/-!
Shallow embedding of the credential storage core of `omni-wa-meta-api`:
`src/utils/crypto.ts` (AES-256-GCM encrypt/decrypt and master-key loading),
`src/utils/redis.ts` (`keyFor`), and the credential store / upstream
forwarder (`saveCreds`, `getCreds`, `waFetch`).

Bytes are modelled as `Nat` with explicit `< 256` bounds where byte-ness
matters.  The external Node library primitives (the AES-256-GCM keystream
and authentication tag, `JSON.stringify`/`JSON.parse`) are parameters of
the definitions: GCM is counter-mode XOR of a keystream plus a tag computed
from key, nonce and ciphertext, which is exactly how the parameters enter.
Everything written by this repository itself (buffer layout, base64,
slicing, key length check, store logic, header construction, error paths)
is embedded concretely from the source.
-/

/-- The per-tenant credential record, from `src/unnamed/part_002`
(`IntegrationCreds`).  The spec's names map as: `apiVersion` = `version`,
`accountId` = `wabaId`, `senderId` = `phoneNumberId`, `accessToken` =
`token`, `webhookVerifyToken` = `verifyToken`. -/
structure IntegrationCreds where
  version : String
  wabaId : String
  phoneNumberId : String
  token : String
  verifyToken : Option String
  displayName : Option String
deriving DecidableEq

/-- Numeric value of one base64 alphabet character, `none` for every other
character.  Node's base64 decoder accepts both the standard alphabet
(`+`, `/`) and the URL-safe one (`-`, `_`) when decoding. -/
def charSextet (c : Char) : Option Nat :=
  if 65 ≤ c.toNat ∧ c.toNat ≤ 90 then some (c.toNat - 65)
  else if 97 ≤ c.toNat ∧ c.toNat ≤ 122 then some (26 + (c.toNat - 97))
  else if 48 ≤ c.toNat ∧ c.toNat ≤ 57 then some (52 + (c.toNat - 48))
  else if c = '+' then some 62
  else if c = '-' then some 62
  else if c = '/' then some 63
  else if c = '_' then some 63
  else none

/-- The base64 alphabet character for a 6-bit value. -/
def sextetChar (s : Nat) : Char :=
  if s < 26 then Char.ofNat (65 + s)
  else if s < 52 then Char.ofNat (97 + (s - 26))
  else if s < 62 then Char.ofNat (48 + (s - 52))
  else if s = 62 then '+'
  else '/'

/-- Bytes to 6-bit groups, 3 bytes at a time, with the standard tail
handling (1 trailing byte gives 2 sextets, 2 trailing bytes give 3). -/
def sextetsOfBytes : List Nat → List Nat
  | b1 :: b2 :: b3 :: rest =>
      b1 / 4 :: ((b1 % 4) * 16 + b2 / 16) :: ((b2 % 16) * 4 + b3 / 64) :: b3 % 64 ::
        sextetsOfBytes rest
  | [b1, b2] => [b1 / 4, (b1 % 4) * 16 + b2 / 16, (b2 % 16) * 4]
  | [b1] => [b1 / 4, (b1 % 4) * 16]
  | [] => []

/-- 6-bit groups back to bytes, 4 sextets at a time, dropping a trailing
group of fewer than 8 bits. -/
def bytesOfSextets : List Nat → List Nat
  | s1 :: s2 :: s3 :: s4 :: rest =>
      (s1 * 4 + s2 / 16) :: ((s2 % 16) * 16 + s3 / 4) :: ((s3 % 4) * 64 + s4) ::
        bytesOfSextets rest
  | [s1, s2, s3] => [s1 * 4 + s2 / 16, (s2 % 16) * 16 + s3 / 4]
  | [s1, s2] => [s1 * 4 + s2 / 16]
  | _ => []

/-- Base64 encoding with standard `=` padding, as produced by
`Buffer.prototype.toString("base64")`. -/
def base64Encode (bs : List Nat) : String :=
  String.mk ((sextetsOfBytes bs).map sextetChar ++ List.replicate ((3 - bs.length % 3) % 3) '=')

/-- Lenient base64 decoding as performed by `Buffer.from(s, "base64")`:
decoding stops at the first `=`, characters outside the (standard or
URL-safe) alphabet before that point are skipped, and trailing bits short
of a full byte are dropped. -/
def base64Decode (s : String) : List Nat :=
  bytesOfSextets ((s.data.takeWhile (fun c => c != '=')).filterMap charSextet)

/-- A string is strictly valid base64 when every character is either in the
base64 alphabet or `=` padding.  Used only to state the spec's "not valid
base64" condition. -/
def validBase64 (s : String) : Bool :=
  s.data.all (fun c => (charSextet c).isSome || c = '=')

/-- Counter-mode XOR of a byte list against a keystream, starting at stream
index `i`.  AES-256-GCM encrypts (and decrypts) the payload by XORing it
against the AES-CTR keystream determined by the key and nonce; the
keystream function itself is the external cipher primitive. -/
def listXor (f : Nat → Nat) : Nat → List Nat → List Nat
  | _, [] => []
  | i, b :: rest => (b ^^^ f i) :: listXor f (i + 1) rest

/-- Encryption, from `src/utils/crypto.ts` lines 14–21 (`encrypt`): a fresh
12-byte nonce `iv` (the caller of this pure model passes the value that
`crypto.randomBytes(12)` produced), AES-256-GCM over the serialized record
(`ks` is the CTR keystream of key and nonce, `tagFn` the 16-byte GCM tag of
key, nonce and ciphertext, `ser` the `JSON.stringify`-to-bytes step), output
`base64(iv || tag || ciphertext)`. -/
def encrypt (ks : List Nat → List Nat → Nat → Nat)
    (tagFn : List Nat → List Nat → List Nat → List Nat)
    (ser : IntegrationCreds → List Nat)
    (key iv : List Nat) (creds : IntegrationCreds) : String :=
  let plain := ser creds
  let ct := listXor (ks key iv) 0 plain
  let tag := tagFn key iv ct
  base64Encode (iv ++ tag ++ ct)

/-- GCM authentication tag lengths Node accepts in
`decipher.setAuthTag` when no `authTagLength` option was given (the NIST
SP 800-38D lengths); any other length makes `setAuthTag` throw. -/
def nistTagLens : List Nat := [4, 8, 12, 13, 14, 15, 16]

/-- Decryption, from `src/utils/crypto.ts` lines 23–32 (`decrypt`): lenient
base64 decode, split as nonce = bytes 0–11, tag = bytes 12–27, ciphertext =
the rest (`Buffer.subarray` clamps, so short inputs give short slices).
`createDecipheriv` throws on an empty nonce; `setAuthTag` throws unless the
tag slice has an allowed GCM length; GCM verifies the (possibly truncated)
tag against the tag recomputed from key, nonce and ciphertext and only then
releases the plaintext, which `parse` (`JSON.parse` of the UTF-8 text)
turns back into a record.  Any throw is `none`: all-or-nothing. -/
def decrypt (ks : List Nat → List Nat → Nat → Nat)
    (tagFn : List Nat → List Nat → List Nat → List Nat)
    (parse : List Nat → Option IntegrationCreds)
    (key : List Nat) (b64 : String) : Option IntegrationCreds :=
  let raw := base64Decode b64
  let iv := raw.take 12
  let tag := (raw.drop 12).take 16
  let data := raw.drop 28
  if iv.length = 0 then none
  else if tag.length ∈ nistTagLens then
    if (tagFn key iv data).take tag.length = tag then listXor (ks key iv) 0 data |> parse
    else none
  else none

/-- The external key-value store boundary (`@upstash/redis`): a partial map
from keys to string values.  `set` overwrites unconditionally. -/
def Store : Type := String → Option String

def Store.set (st : Store) (k v : String) : Store :=
  fun k2 => if k2 = k then some v else st k2

def emptyStore : Store := fun _ => none

/-- Storage-key derivation, from `src/utils/redis.ts` line 6 (`keyFor`). -/
def keyFor (integrationId : String) : String :=
  "wa:integration:" ++ integrationId ++ ":creds"

/-- Result of a credential read: the source throws
`Error("Credentials not found")` for a missing value and propagates the
throw from `decrypt` otherwise, two distinguishable failures. -/
inductive GetResult where
  | ok (creds : IntegrationCreds)
  | notFound
  | decryptError
deriving DecidableEq

/-- Credential save, from `src/unnamed/part_003` lines 5–7 (`saveCreds`):
encrypts and writes under the derived key, nothing else — in particular no
field validation.  `iv` is the fresh nonce drawn inside `encrypt`. -/
def saveCreds (ks : List Nat → List Nat → Nat → Nat)
    (tagFn : List Nat → List Nat → List Nat → List Nat)
    (ser : IntegrationCreds → List Nat) (key iv : List Nat)
    (st : Store) (integrationId : String) (creds : IntegrationCreds) : Store :=
  Store.set st (keyFor integrationId) (encrypt ks tagFn ser key iv creds)

/-- Credential read, from `src/unnamed/part_003` lines 8–12 (`getCreds`):
reads the derived key, `if (!enc) throw Error("Credentials not found")`
(which also fires on a stored empty string, since `""` is falsy), otherwise
decrypts. -/
def getCreds (ks : List Nat → List Nat → Nat → Nat)
    (tagFn : List Nat → List Nat → List Nat → List Nat)
    (parse : List Nat → Option IntegrationCreds) (key : List Nat)
    (st : Store) (integrationId : String) : GetResult :=
  match st (keyFor integrationId) with
  | none => .notFound
  | some enc =>
      if enc = "" then .notFound
      else
        match decrypt ks tagFn parse key enc with
        | none => .decryptError
        | some r => .ok r

/-- Hex decoding as performed by `Buffer.from(s, "hex")`: complete pairs of
hex digits are decoded; decoding stops at the first invalid character or
odd trailing digit. -/
def hexVal (c : Char) : Option Nat :=
  if 48 ≤ c.toNat ∧ c.toNat ≤ 57 then some (c.toNat - 48)
  else if 97 ≤ c.toNat ∧ c.toNat ≤ 102 then some (10 + (c.toNat - 97))
  else if 65 ≤ c.toNat ∧ c.toNat ≤ 70 then some (10 + (c.toNat - 65))
  else none

def hexDecode : List Char → List Nat
  | c1 :: c2 :: rest =>
      match hexVal c1, hexVal c2 with
      | some h, some l => (16 * h + l) :: hexDecode rest
      | _, _ => []
  | _ => []

/-- Master-key material decoding, from `src/utils/crypto.ts` lines 5–8: a
set, non-empty `MASTER_KEY_HEX` with `MASTER_KEY_ENCODING` other than
`"base64"` is hex-decoded; otherwise the variable (defaulted to the empty
string when unset) is base64-decoded. -/
def decodeMasterKey (masterKeyHex masterKeyEncoding : Option String) : List Nat :=
  match masterKeyHex with
  | some s =>
      if s ≠ "" ∧ masterKeyEncoding ≠ some "base64" then hexDecode s.data
      else base64Decode s
  | none => base64Decode ""

/-- Module initialization, from `src/utils/crypto.ts` lines 5–12: the
decoded `KEY` must be exactly 32 bytes, otherwise the module throws at load
time and the process cannot serve requests. -/
def loadKey (masterKeyHex masterKeyEncoding : Option String) : Except String (List Nat) :=
  let key := decodeMasterKey masterKeyHex masterKeyEncoding
  if key.length = 32 then .ok key
  else .error "MASTER_KEY_HEX must be 32 bytes (hex length 64) or base64 for 32 bytes"

/-- An upstream HTTP response as observed through `fetch`: status code and
body text (`res.text()` / `res.json()` both read this body). -/
structure FetchResponse where
  status : Nat
  body : String
deriving DecidableEq

/-- Result of the forwarder: success carries the value of
`res.json() as T`; the three failure kinds mirror the distinct throws of
`getCreds` (propagated), the non-2xx branch, and a body that is not JSON. -/
inductive WaResult (J : Type) where
  | ok (json : J)
  | credsNotFound
  | credsDecryptError
  | upstreamError (msg : String)
  | jsonError
deriving DecidableEq

/-- The outgoing header object of `waFetch`:
`{ Authorization: Bearer token, Content-Type: application/json,
...extraHeaders }`.  JavaScript object spread lets a later `extraHeaders`
key replace an earlier one, so a caller-supplied header wins. -/
def headersFor (token : String) (extraHeaders : List (String × String)) :
    String → Option String :=
  fun name =>
    match extraHeaders.lookup name with
    | some v => some v
    | none =>
        if name = "Authorization" then some ("Bearer " ++ token)
        else if name = "Content-Type" then some "application/json" else none

/-- The upstream forwarder, from `src/unnamed/part_003` lines 14–35
(`waFetch`): reads the credentials first, builds the graph URL from the
stored API version, issues the request through the `fetch` oracle `f`
with the merged headers, throws
`Error(method url -> status body)` on a non-ok (non-2xx) response, and
otherwise parses the body as JSON. -/
def waFetch {J : Type} (ks : List Nat → List Nat → Nat → Nat)
    (tagFn : List Nat → List Nat → List Nat → List Nat)
    (parse : List Nat → Option IntegrationCreds) (key : List Nat)
    (jsonParse : String → Option J)
    (f : String → String → (String → Option String) → Option String → FetchResponse)
    (st : Store) (integrationId path method : String)
    (body : Option String) (extraHeaders : List (String × String)) : WaResult J :=
  match getCreds ks tagFn parse key st integrationId with
  | .notFound => .credsNotFound
  | .decryptError => .credsDecryptError
  | .ok c =>
      let url := "https://graph.facebook.com/" ++ c.version ++ path
      let res := f url method (headersFor c.token extraHeaders) body
      if 200 ≤ res.status ∧ res.status < 300 then
        match jsonParse res.body with
        | some j => .ok j
        | none => .jsonError
      else .upstreamError (method ++ " " ++ url ++ " -> " ++ Nat.repr res.status ++ " " ++ res.body)

/-- A concrete keystream instance used by the evaluated witnesses. -/
def ks0 : List Nat → List Nat → Nat → Nat := fun _ _ _ => 0

/-- A concrete 16-byte tag instance used by the evaluated witnesses. -/
def tagFn0 : List Nat → List Nat → List Nat → List Nat := fun _ _ _ => List.replicate 16 7

def key0 : List Nat := List.replicate 32 0

def iv0 : List Nat := List.range 12

def iv1 : List Nat := List.replicate 12 0

/-- A concrete length-prefixed serializer instance used by the evaluated
witnesses (an injective structured encoding in the role of
`JSON.stringify`). -/
def serStr (s : String) : List Nat := s.length :: s.data.map Char.toNat

def serOpt : Option String → List Nat
  | none => [0]
  | some s => 1 :: serStr s

def ser0 (r : IntegrationCreds) : List Nat :=
  serStr r.version ++ serStr r.wabaId ++ serStr r.phoneNumberId ++ serStr r.token ++
    serOpt r.verifyToken ++ serOpt r.displayName

def pStr : List Nat → Option (String × List Nat)
  | n :: rest =>
      if n ≤ rest.length then some (String.mk ((rest.take n).map Char.ofNat), rest.drop n)
      else none
  | [] => none

def pOpt : List Nat → Option (Option String × List Nat)
  | 0 :: rest => some (none, rest)
  | 1 :: rest => (pStr rest).map fun p => (some p.1, p.2)
  | _ => none

/-- The matching deserializer instance (in the role of `JSON.parse`); it
rejects the empty byte list, as `JSON.parse("")` does. -/
def parse0 (bs : List Nat) : Option IntegrationCreds := do
  let (v, bs) ← pStr bs
  let (w, bs) ← pStr bs
  let (p, bs) ← pStr bs
  let (t, bs) ← pStr bs
  let (vt, bs) ← pOpt bs
  let (dn, bs) ← pOpt bs
  if bs = [] then some ⟨v, w, p, t, vt, dn⟩ else none

def r0 : IntegrationCreds :=
  ⟨"v20.0", "waba1", "phone1", "secret-token", none, none⟩

def r2 : IntegrationCreds :=
  ⟨"v21.0", "waba1", "phone1", "rotated-token", some "vt", some "shop"⟩

def rBad : IntegrationCreds := ⟨"v20.0", "", "", "", none, none⟩

def hex64 : String := String.mk (List.replicate 64 '0')

/-- A store holding valid credentials for the id `"x"`, used by the
evaluated C9 counterexample. -/
def storeX : Store := saveCreds ks0 tagFn0 ser0 key0 iv0 emptyStore "x" r0

/-- A fetch oracle that answers 200 and echoes back the Authorization
header it was sent, making the outgoing header observable. -/
def fetchEcho : String → String → (String → Option String) → Option String → FetchResponse :=
  fun _ _ headers _ => ⟨200, (headers "Authorization").getD ""⟩

def jsonId : String → Option String := fun s => some s

theorem bytesOfSextets_sextetsOfBytes (bs : List Nat) (h : ∀ b ∈ bs, b < 256) :
    bytesOfSextets (sextetsOfBytes bs) = bs := by
  induction bs using sextetsOfBytes.induct with
  | case1 b1 b2 b3 rest ih =>
      have h1 : b1 < 256 := h b1 (by simp)
      have h2 : b2 < 256 := h b2 (by simp)
      have h3 : b3 < 256 := h b3 (by simp)
      have ih' := ih (fun b hb => h b (by simp [hb]))
      simp only [sextetsOfBytes, bytesOfSextets, ih', List.cons.injEq, and_true]
      omega
  | case2 b1 b2 =>
      have h1 : b1 < 256 := h b1 (by simp)
      have h2 : b2 < 256 := h b2 (by simp)
      simp only [sextetsOfBytes, bytesOfSextets, List.cons.injEq, and_true]
      omega
  | case3 b1 =>
      have h1 : b1 < 256 := h b1 (by simp)
      simp only [sextetsOfBytes, bytesOfSextets, List.cons.injEq, and_true]
      omega
  | case4 => rfl

theorem sextetsOfBytes_lt (bs : List Nat) (h : ∀ b ∈ bs, b < 256) :
    ∀ s ∈ sextetsOfBytes bs, s < 64 := by
  induction bs using sextetsOfBytes.induct with
  | case1 b1 b2 b3 rest ih =>
      have h1 : b1 < 256 := h b1 (by simp)
      have h2 : b2 < 256 := h b2 (by simp)
      have h3 : b3 < 256 := h b3 (by simp)
      have ih' := ih (fun b hb => h b (by simp [hb]))
      intro s hs
      simp only [sextetsOfBytes, List.mem_cons] at hs
      rcases hs with rfl | rfl | rfl | rfl | hs
      · omega
      · omega
      · omega
      · omega
      · exact ih' s hs
  | case2 b1 b2 =>
      have h1 : b1 < 256 := h b1 (by simp)
      have h2 : b2 < 256 := h b2 (by simp)
      intro s hs
      simp only [sextetsOfBytes, List.mem_cons, List.not_mem_nil, or_false] at hs
      rcases hs with rfl | rfl | rfl <;> omega
  | case3 b1 =>
      have h1 : b1 < 256 := h b1 (by simp)
      intro s hs
      simp only [sextetsOfBytes, List.mem_cons, List.not_mem_nil, or_false] at hs
      rcases hs with rfl | rfl <;> omega
  | case4 => intro s hs; simp [sextetsOfBytes] at hs

theorem charSextet_sextetChar : ∀ s, s < 64 → charSextet (sextetChar s) = some s := by
  decide

theorem filterMap_charSextet_map (sx : List Nat) (h : ∀ s ∈ sx, s < 64) :
    List.filterMap charSextet (sx.map sextetChar) = sx := by
  induction sx with
  | nil => rfl
  | cons s rest ih =>
      have hs : s < 64 := h s (by simp)
      have ih' := ih (fun x hx => h x (by simp [hx]))
      simp [List.filterMap_cons, charSextet_sextetChar s hs, ih']

theorem sextetChar_ne_pad : ∀ s, s < 64 → (sextetChar s != '=') = true := by
  decide

theorem takeWhile_append_all (p : Char → Bool) (a b : List Char) (h : ∀ x ∈ a, p x = true) :
    (a ++ b).takeWhile p = a ++ b.takeWhile p := by
  induction a with
  | nil => simp
  | cons x rest ih =>
      simp [List.takeWhile_cons, h x (by simp), ih (fun y hy => h y (by simp [hy]))]

theorem takeWhile_pad (n : Nat) :
    (List.replicate n '=').takeWhile (fun c => c != '=') = [] := by
  cases n with
  | zero => rfl
  | succ m => simp [List.replicate_succ, List.takeWhile_cons]

/-- Lenient decoding inverts encoding on genuine byte lists: the encoder
emits only alphabet characters followed by trailing `=` padding, so the
decoder consumes exactly the data characters and stops at the padding. -/
theorem base64Decode_base64Encode (bs : List Nat) (h : ∀ b ∈ bs, b < 256) :
    base64Decode (base64Encode bs) = bs := by
  show bytesOfSextets ((((sextetsOfBytes bs).map sextetChar ++
      List.replicate ((3 - bs.length % 3) % 3) '=').takeWhile
        (fun c => c != '=')).filterMap charSextet) = bs
  rw [takeWhile_append_all _ _ _ (fun x hx => ?_), takeWhile_pad, List.append_nil,
    filterMap_charSextet_map _ (sextetsOfBytes_lt bs h)]
  · exact bytesOfSextets_sextetsOfBytes bs h
  · rcases List.mem_map.mp hx with ⟨s, hs, rfl⟩
    exact sextetChar_ne_pad s (sextetsOfBytes_lt bs h s hs)

theorem listXor_listXor (f : Nat → Nat) : ∀ i bs, listXor f i (listXor f i bs) = bs := by
  intro i bs
  induction bs generalizing i with
  | nil => rfl
  | cons b rest ih =>
      simp [listXor, ih, Nat.xor_assoc, Nat.xor_self, Nat.xor_zero]

theorem listXor_lt (f : Nat → Nat) (hf : ∀ n, f n < 256) :
    ∀ i bs, (∀ b ∈ bs, b < 256) → ∀ b ∈ listXor f i bs, b < 256 := by
  intro i bs
  induction bs generalizing i with
  | nil => intro _ b hb; simp [listXor] at hb
  | cons x rest ih =>
      intro h b hb
      simp only [listXor, List.mem_cons] at hb
      rcases hb with rfl | hb
      · have hx : x < 2 ^ 8 := h x (by simp)
        have hfi : f i < 2 ^ 8 := hf i
        exact Nat.xor_lt_two_pow hx hfi
      · exact ih (i + 1) (fun y hy => h y (by simp [hy])) b hb

theorem listXor_nil (f : Nat → Nat) (i : Nat) : listXor f i [] = [] := rfl

theorem take_append_of_length (a b : List Nat) (n : Nat) (h : a.length = n) :
    (a ++ b).take n = a := by
  subst h; simp

theorem drop_append_of_length (a b : List Nat) (n : Nat) (h : a.length = n) :
    (a ++ b).drop n = b := by
  subst h; simp

theorem drop28_append (a b c : List Nat) (ha : a.length = 12) (hb : b.length = 16) :
    (a ++ (b ++ c)).drop 28 = c := by
  rw [← List.append_assoc]
  have h : (a ++ b).length = 28 := by simp [ha, hb]
  exact drop_append_of_length _ _ 28 h

/-- Core round-trip helper: decrypting an encryption recovers the record,
given the GCM contract (16-byte tag), byte-valued primitives, and that
parsing inverts serialization at this record. -/
theorem decrypt_encrypt_eq (ks : List Nat → List Nat → Nat → Nat)
    (tagFn : List Nat → List Nat → List Nat → List Nat)
    (ser : IntegrationCreds → List Nat) (parse : List Nat → Option IntegrationCreds)
    (key iv : List Nat) (r : IntegrationCreds)
    (hiv : iv.length = 12)
    (hivb : ∀ b ∈ iv, b < 256)
    (hks : ∀ n, ks key iv n < 256)
    (hserb : ∀ b ∈ ser r, b < 256)
    (htlen : (tagFn key iv (listXor (ks key iv) 0 (ser r))).length = 16)
    (htb : ∀ b ∈ tagFn key iv (listXor (ks key iv) 0 (ser r)), b < 256)
    (hr : parse (ser r) = some r) :
    decrypt ks tagFn parse key (encrypt ks tagFn ser key iv r) = some r := by
  have hctb : ∀ b ∈ listXor (ks key iv) 0 (ser r), b < 256 :=
    listXor_lt (ks key iv) hks 0 (ser r) hserb
  have hall : ∀ b ∈ iv ++ tagFn key iv (listXor (ks key iv) 0 (ser r)) ++
      listXor (ks key iv) 0 (ser r), b < 256 := by
    intro b hb
    simp only [List.mem_append] at hb
    rcases hb with (hb | hb) | hb
    · exact hivb b hb
    · exact htb b hb
    · exact hctb b hb
  have hdec : base64Decode (encrypt ks tagFn ser key iv r) =
      iv ++ tagFn key iv (listXor (ks key iv) 0 (ser r)) ++ listXor (ks key iv) 0 (ser r) :=
    base64Decode_base64Encode _ hall
  simp only [decrypt, encrypt] at hdec ⊢
  rw [hdec, List.append_assoc]
  rw [take_append_of_length _ _ 12 hiv, drop_append_of_length _ _ 12 hiv]
  rw [take_append_of_length _ _ 16 htlen]
  rw [drop28_append _ _ _ hiv htlen]
  rw [hiv, htlen]
  have hmem : (16 : Nat) ∈ nistTagLens := by decide
  simp only [hmem, if_true, if_neg (by omega : ¬ (12 : Nat) = 0)]
  rw [show List.take 16 (tagFn key iv (listXor (ks key iv) 0 (ser r))) =
      tagFn key iv (listXor (ks key iv) 0 (ser r)) from by
    conv_lhs => rw [← htlen]
    exact List.take_length _]
  rw [if_pos rfl, listXor_listXor]
  exact hr

/-- Encrypting never yields the empty string: the blob always holds at
least the nonce bytes. -/
theorem sextetsOfBytes_ne_nil (bs : List Nat) (h : bs ≠ []) : sextetsOfBytes bs ≠ [] := by
  match bs with
  | [] => exact absurd rfl h
  | [b1] => simp [sextetsOfBytes]
  | [b1, b2] => simp [sextetsOfBytes]
  | b1 :: b2 :: b3 :: rest => simp [sextetsOfBytes]

theorem base64Encode_ne_empty (bs : List Nat) (h : bs ≠ []) : base64Encode bs ≠ "" := by
  intro he
  have hd : (base64Encode bs).data = ("" : String).data := by rw [he]
  simp only [base64Encode] at hd
  have : (sextetsOfBytes bs).map sextetChar ++
      List.replicate ((3 - bs.length % 3) % 3) '=' = [] := hd
  rcases List.append_eq_nil.mp this with ⟨hmap, _⟩
  exact sextetsOfBytes_ne_nil bs h (List.map_eq_nil_iff.mp hmap)

theorem encrypt_ne_empty (ks : List Nat → List Nat → Nat → Nat)
    (tagFn : List Nat → List Nat → List Nat → List Nat)
    (ser : IntegrationCreds → List Nat) (key iv : List Nat) (r : IntegrationCreds)
    (hiv : iv.length = 12) : encrypt ks tagFn ser key iv r ≠ "" := by
  apply base64Encode_ne_empty
  intro he
  have := congrArg List.length he
  simp [hiv] at this

theorem string_data_inj {a b : String} (h : a.data = b.data) : a = b := by
  cases a
  cases b
  exact congrArg String.mk h

/-- C10: the storage-key derivation is injective — distinct integration
ids always map to distinct store keys, so a save under one id cannot touch
the entry of another id. -/
theorem C10_keyFor_injective :
    ∀ id1 id2 : String, id1 ≠ id2 →
      keyFor id1 ≠ keyFor id2 ∧
      ∀ (st : Store) (v : String), Store.set st (keyFor id1) v (keyFor id2) = st (keyFor id2) := by
  have hinj : ∀ a b : String, keyFor a = keyFor b → a = b := by
    intro a b h
    have hd := congrArg String.data h
    simp only [keyFor, String.data_append] at hd
    exact string_data_inj (List.append_cancel_left (List.append_cancel_right hd))
  intro id1 id2 hne
  have hk : keyFor id1 ≠ keyFor id2 := fun h => hne (hinj _ _ h)
  refine ⟨hk, fun st v => ?_⟩
  simp only [Store.set]
  exact if_neg (fun h => hk h.symm)

theorem C10_keyFor_injective_inst : keyFor "a" ≠ keyFor "b" :=
  (C10_keyFor_injective "a" "b" (by decide)).1

/-- C4: module construction accepts exactly the 32-byte keys — `loadKey`
succeeds precisely when the decoded key material has length 32, any key it
accepts has 32 bytes, and a missing `MASTER_KEY_HEX` (which decodes to 0
bytes) is a fatal error. -/
theorem C4_loadKey_length_gate :
    ∀ masterKeyHex masterKeyEncoding : Option String,
      (loadKey masterKeyHex masterKeyEncoding =
          .ok (decodeMasterKey masterKeyHex masterKeyEncoding) ↔
        (decodeMasterKey masterKeyHex masterKeyEncoding).length = 32) ∧
      (∀ k, loadKey masterKeyHex masterKeyEncoding = .ok k → k.length = 32) ∧
      loadKey none masterKeyEncoding =
        .error "MASTER_KEY_HEX must be 32 bytes (hex length 64) or base64 for 32 bytes" := by
  intro mkh enc
  refine ⟨?_, ?_, rfl⟩
  · simp only [loadKey]
    by_cases h : (decodeMasterKey mkh enc).length = 32
    · simp [h]
    · simp [h]
  · intro k hk
    simp only [loadKey] at hk
    by_cases h : (decodeMasterKey mkh enc).length = 32
    · rw [if_pos h] at hk
      cases hk
      exact h
    · rw [if_neg h] at hk
      cases hk

theorem C4_loadKey_length_gate_inst :
    loadKey (some hex64) none = .ok (decodeMasterKey (some hex64) none) :=
  (C4_loadKey_length_gate (some hex64) none).1.mpr (by decide)

/-- C1 counterexample: `rBad` has empty `wabaId` (accountId), empty
`phoneNumberId` (senderId) and empty `token` (accessToken), yet `saveCreds`
still writes an encrypted blob for it to the store — the store's `set` is
invoked and nothing resembling a validation failure occurs, contradicting
the claim that no write is performed for such a record. -/
theorem C1_counterexample_saveCreds_writes_empty_fields :
    rBad.wabaId = "" ∧ rBad.phoneNumberId = "" ∧ rBad.token = "" ∧
      (saveCreds ks0 tagFn0 ser0 key0 iv0 emptyStore "x" rBad) (keyFor "x") =
        some (encrypt ks0 tagFn0 ser0 key0 iv0 rBad) := by
  refine ⟨rfl, rfl, rfl, ?_⟩
  simp [saveCreds, Store.set]

/-- C1 amended: `saveCreds` performs no validation at all — for every
record, including records whose required fields are empty, it
unconditionally encrypts and writes the blob under the derived key (the
store's `set` is always invoked), leaving every other key untouched; no
`ValidationError` path exists. -/
theorem C1_saveCreds_never_validates
    (ks : List Nat → List Nat → Nat → Nat)
    (tagFn : List Nat → List Nat → List Nat → List Nat)
    (ser : IntegrationCreds → List Nat) (key iv : List Nat)
    (st : Store) (integrationId : String) (r : IntegrationCreds) :
    (saveCreds ks tagFn ser key iv st integrationId r) (keyFor integrationId) =
      some (encrypt ks tagFn ser key iv r) ∧
    ∀ k, k ≠ keyFor integrationId →
      (saveCreds ks tagFn ser key iv st integrationId r) k = st k := by
  constructor
  · simp [saveCreds, Store.set]
  · intro k hk
    simp only [saveCreds, Store.set]
    exact if_neg hk

theorem C1_saveCreds_never_validates_inst :
    (saveCreds ks0 tagFn0 ser0 key0 iv0 emptyStore "x" rBad) "other" = emptyStore "other" :=
  (C1_saveCreds_never_validates ks0 tagFn0 ser0 key0 iv0 emptyStore "x" rBad).2 "other"
    (by decide)

/-- C7 counterexample: a store in which the key for `"x"` holds the empty
string.  A value exists (`some ""`) and decryption of that value fails, so
the claim demands `DecryptionError`; the code's falsy check
`if (!enc)` reports `NotFoundError` instead. -/
theorem C7_counterexample_empty_string_not_found :
    (Store.set emptyStore (keyFor "x") "") (keyFor "x") = some "" ∧
    decrypt ks0 tagFn0 parse0 key0 "" = none ∧
    getCreds ks0 tagFn0 parse0 key0 (Store.set emptyStore (keyFor "x") "") "x" = .notFound := by
  refine ⟨?_, by decide, ?_⟩
  · simp [Store.set]
  · simp [getCreds, Store.set]

/-- C7 amended: `getCreds` reads the blob under the derived key and fails
with `NotFoundError` when no value exists *or the stored value is the empty
string* (the falsy check); for any other stored value it decrypts,
returning the record on success and the distinct `DecryptionError` on
decryption failure. -/
theorem C7_getCreds_characterization
    (ks : List Nat → List Nat → Nat → Nat)
    (tagFn : List Nat → List Nat → List Nat → List Nat)
    (parse : List Nat → Option IntegrationCreds) (key : List Nat)
    (st : Store) (integrationId : String) :
    (st (keyFor integrationId) = none →
      getCreds ks tagFn parse key st integrationId = .notFound) ∧
    (st (keyFor integrationId) = some "" →
      getCreds ks tagFn parse key st integrationId = .notFound) ∧
    (∀ e, st (keyFor integrationId) = some e → e ≠ "" →
      (decrypt ks tagFn parse key e = none →
        getCreds ks tagFn parse key st integrationId = .decryptError) ∧
      (∀ r, decrypt ks tagFn parse key e = some r →
        getCreds ks tagFn parse key st integrationId = .ok r)) := by
  refine ⟨fun h => ?_, fun h => ?_, fun e he hne => ⟨fun hd => ?_, fun r hd => ?_⟩⟩
  · simp [getCreds, h]
  · simp [getCreds, h]
  · simp [getCreds, he, hne, hd]
  · simp [getCreds, he, hne, hd]

theorem C7_getCreds_characterization_inst :
    getCreds ks0 tagFn0 parse0 key0 emptyStore "x" = .notFound :=
  (C7_getCreds_characterization ks0 tagFn0 parse0 key0 emptyStore "x").1 rfl

/-- C2: round-trip law — decrypting an encryption of any record (optional
fields included) yields the original record, under the GCM contract (the
tag recomputed from the same key, nonce and ciphertext matches and has 16
bytes) and parse inverting serialization at the record. -/
theorem C2_decrypt_encrypt_roundtrip
    (ks : List Nat → List Nat → Nat → Nat)
    (tagFn : List Nat → List Nat → List Nat → List Nat)
    (ser : IntegrationCreds → List Nat) (parse : List Nat → Option IntegrationCreds)
    (key iv : List Nat) (r : IntegrationCreds)
    (hiv : iv.length = 12)
    (hivb : ∀ b ∈ iv, b < 256)
    (hks : ∀ n, ks key iv n < 256)
    (hserb : ∀ b ∈ ser r, b < 256)
    (htlen : (tagFn key iv (listXor (ks key iv) 0 (ser r))).length = 16)
    (htb : ∀ b ∈ tagFn key iv (listXor (ks key iv) 0 (ser r)), b < 256)
    (hr : parse (ser r) = some r) :
    decrypt ks tagFn parse key (encrypt ks tagFn ser key iv r) = some r :=
  decrypt_encrypt_eq ks tagFn ser parse key iv r hiv hivb hks hserb htlen htb hr

theorem C2_decrypt_encrypt_roundtrip_inst :
    decrypt ks0 tagFn0 parse0 key0 (encrypt ks0 tagFn0 ser0 key0 iv0 r0) = some r0 :=
  C2_decrypt_encrypt_roundtrip ks0 tagFn0 ser0 parse0 key0 iv0 r0 (by decide) (by decide)
    (fun _ => by simp [ks0]) (by decide) (by decide) (by decide) (by decide)

theorem getCreds_saveCreds
    (ks : List Nat → List Nat → Nat → Nat)
    (tagFn : List Nat → List Nat → List Nat → List Nat)
    (ser : IntegrationCreds → List Nat) (parse : List Nat → Option IntegrationCreds)
    (key iv : List Nat) (st : Store) (integrationId : String) (r : IntegrationCreds)
    (hiv : iv.length = 12)
    (hivb : ∀ b ∈ iv, b < 256)
    (hks : ∀ n, ks key iv n < 256)
    (hserb : ∀ b ∈ ser r, b < 256)
    (htlen : (tagFn key iv (listXor (ks key iv) 0 (ser r))).length = 16)
    (htb : ∀ b ∈ tagFn key iv (listXor (ks key iv) 0 (ser r)), b < 256)
    (hr : parse (ser r) = some r) :
    getCreds ks tagFn parse key (saveCreds ks tagFn ser key iv st integrationId r)
      integrationId = .ok r := by
  have hst : (saveCreds ks tagFn ser key iv st integrationId r) (keyFor integrationId) =
      some (encrypt ks tagFn ser key iv r) := by simp [saveCreds, Store.set]
  simp only [getCreds, hst]
  rw [if_neg (encrypt_ne_empty ks tagFn ser key iv r hiv)]
  rw [decrypt_encrypt_eq ks tagFn ser parse key iv r hiv hivb hks hserb htlen htb hr]

/-- C5: store semantics — a save followed by a read of the same id returns
the saved record; a read of an id with no stored value is `NotFound`; a
second save to the same id wholly replaces the first (last-writer-wins),
so a subsequent read returns the second record. -/
theorem C5_store_semantics
    (ks : List Nat → List Nat → Nat → Nat)
    (tagFn : List Nat → List Nat → List Nat → List Nat)
    (ser : IntegrationCreds → List Nat) (parse : List Nat → Option IntegrationCreds)
    (key iv : List Nat) (st : Store) (integrationId : String)
    (r rA rB : IntegrationCreds)
    (hiv : iv.length = 12)
    (hivb : ∀ b ∈ iv, b < 256)
    (hks : ∀ n, ks key iv n < 256)
    (hserb : ∀ b ∈ ser r, b < 256)
    (htlen : (tagFn key iv (listXor (ks key iv) 0 (ser r))).length = 16)
    (htb : ∀ b ∈ tagFn key iv (listXor (ks key iv) 0 (ser r)), b < 256)
    (hr : parse (ser r) = some r)
    (hserbB : ∀ b ∈ ser rB, b < 256)
    (htlenB : (tagFn key iv (listXor (ks key iv) 0 (ser rB))).length = 16)
    (htbB : ∀ b ∈ tagFn key iv (listXor (ks key iv) 0 (ser rB)), b < 256)
    (hrB : parse (ser rB) = some rB) :
    getCreds ks tagFn parse key (saveCreds ks tagFn ser key iv st integrationId r)
      integrationId = .ok r ∧
    (st (keyFor integrationId) = none →
      getCreds ks tagFn parse key st integrationId = .notFound) ∧
    getCreds ks tagFn parse key
      (saveCreds ks tagFn ser key iv
        (saveCreds ks tagFn ser key iv st integrationId rA) integrationId rB)
      integrationId = .ok rB := by
  refine ⟨getCreds_saveCreds ks tagFn ser parse key iv st integrationId r
      hiv hivb hks hserb htlen htb hr,
    fun h => by simp [getCreds, h],
    getCreds_saveCreds ks tagFn ser parse key iv _ integrationId rB
      hiv hivb hks hserbB htlenB htbB hrB⟩

theorem C5_store_semantics_inst :
    getCreds ks0 tagFn0 parse0 key0 (saveCreds ks0 tagFn0 ser0 key0 iv0 emptyStore "x" r0)
      "x" = .ok r0 ∧
    (emptyStore (keyFor "x") = none → getCreds ks0 tagFn0 parse0 key0 emptyStore "x" = .notFound) ∧
    getCreds ks0 tagFn0 parse0 key0
      (saveCreds ks0 tagFn0 ser0 key0 iv0
        (saveCreds ks0 tagFn0 ser0 key0 iv0 emptyStore "x" r0) "x" r2) "x" = .ok r2 :=
  C5_store_semantics ks0 tagFn0 ser0 parse0 key0 iv0 emptyStore "x" r0 r0 r2
    (by decide) (by decide) (fun _ => by simp [ks0]) (by decide) (by decide) (by decide)
    (by decide) (by decide) (by decide) (by decide) (by decide)

/-- C6: blob layout — the encrypted blob base64-decodes to exactly
`nonce || 16-byte tag || ciphertext`, and `decrypt` splits any decoded blob
of that shape back into those three components (first 12 bytes as nonce,
next 16 as tag, remainder as ciphertext), verifying the tag against the
ciphertext and unciphering the remainder. -/
theorem C6_blob_format
    (ks : List Nat → List Nat → Nat → Nat)
    (tagFn : List Nat → List Nat → List Nat → List Nat)
    (ser : IntegrationCreds → List Nat) (parse : List Nat → Option IntegrationCreds)
    (key iv : List Nat) (r : IntegrationCreds)
    (_hiv : iv.length = 12)
    (hivb : ∀ b ∈ iv, b < 256)
    (hks : ∀ n, ks key iv n < 256)
    (hserb : ∀ b ∈ ser r, b < 256)
    (_htlen : (tagFn key iv (listXor (ks key iv) 0 (ser r))).length = 16)
    (htb : ∀ b ∈ tagFn key iv (listXor (ks key iv) 0 (ser r)), b < 256) :
    base64Decode (encrypt ks tagFn ser key iv r) =
      iv ++ tagFn key iv (listXor (ks key iv) 0 (ser r)) ++ listXor (ks key iv) 0 (ser r) ∧
    (∀ nonce tag ct, nonce.length = 12 → tag.length = 16 →
      (∀ b ∈ nonce, b < 256) → (∀ b ∈ tag, b < 256) → (∀ b ∈ ct, b < 256) →
      (tagFn key nonce ct).length = 16 →
      decrypt ks tagFn parse key (base64Encode (nonce ++ tag ++ ct)) =
        if tagFn key nonce ct = tag then parse (listXor (ks key nonce) 0 ct) else none) := by
  constructor
  · apply base64Decode_base64Encode
    intro b hb
    simp only [List.mem_append] at hb
    rcases hb with (hb | hb) | hb
    · exact hivb b hb
    · exact htb b hb
    · exact listXor_lt (ks key iv) hks 0 (ser r) hserb b hb
  · intro nonce tag ct hn ht hnb htgb hctb htlen2
    have hall2 : ∀ b ∈ nonce ++ tag ++ ct, b < 256 := by
      intro b hb
      simp only [List.mem_append] at hb
      rcases hb with (hb | hb) | hb
      · exact hnb b hb
      · exact htgb b hb
      · exact hctb b hb
    simp only [decrypt]
    rw [base64Decode_base64Encode _ hall2, List.append_assoc]
    rw [take_append_of_length _ _ 12 hn, drop_append_of_length _ _ 12 hn]
    rw [take_append_of_length _ _ 16 ht, drop28_append _ _ _ hn ht]
    rw [hn, ht]
    have hmem : (16 : Nat) ∈ nistTagLens := by decide
    simp only [hmem, if_true, if_neg (by omega : ¬ (12 : Nat) = 0)]
    rw [show List.take 16 (tagFn key nonce ct) = tagFn key nonce ct from by
      conv_lhs => rw [← htlen2]
      exact List.take_length _]

theorem C6_blob_format_inst :
    base64Decode (encrypt ks0 tagFn0 ser0 key0 iv0 r0) =
      iv0 ++ tagFn0 key0 iv0 (listXor (ks0 key0 iv0) 0 (ser0 r0)) ++
        listXor (ks0 key0 iv0) 0 (ser0 r0) :=
  (C6_blob_format ks0 tagFn0 ser0 parse0 key0 iv0 r0 (by decide) (by decide)
    (fun _ => by simp [ks0]) (by decide) (by decide) (by decide)).1

/-- C8: encrypting the same record under two differing fresh nonces yields
two different blobs, and each blob independently decrypts back to the
record. -/
theorem C8_nonce_uniqueness
    (ks : List Nat → List Nat → Nat → Nat)
    (tagFn : List Nat → List Nat → List Nat → List Nat)
    (ser : IntegrationCreds → List Nat) (parse : List Nat → Option IntegrationCreds)
    (key ivA ivB : List Nat) (r : IntegrationCreds)
    (hne : ivA ≠ ivB)
    (hivA : ivA.length = 12) (hivB : ivB.length = 12)
    (hivAb : ∀ b ∈ ivA, b < 256) (hivBb : ∀ b ∈ ivB, b < 256)
    (hksA : ∀ n, ks key ivA n < 256) (hksB : ∀ n, ks key ivB n < 256)
    (hserb : ∀ b ∈ ser r, b < 256)
    (htlenA : (tagFn key ivA (listXor (ks key ivA) 0 (ser r))).length = 16)
    (htbA : ∀ b ∈ tagFn key ivA (listXor (ks key ivA) 0 (ser r)), b < 256)
    (htlenB : (tagFn key ivB (listXor (ks key ivB) 0 (ser r))).length = 16)
    (htbB : ∀ b ∈ tagFn key ivB (listXor (ks key ivB) 0 (ser r)), b < 256)
    (hr : parse (ser r) = some r) :
    encrypt ks tagFn ser key ivA r ≠ encrypt ks tagFn ser key ivB r ∧
    decrypt ks tagFn parse key (encrypt ks tagFn ser key ivA r) = some r ∧
    decrypt ks tagFn parse key (encrypt ks tagFn ser key ivB r) = some r := by
  have hallA : ∀ b ∈ ivA ++ tagFn key ivA (listXor (ks key ivA) 0 (ser r)) ++
      listXor (ks key ivA) 0 (ser r), b < 256 := by
    intro b hb
    simp only [List.mem_append] at hb
    rcases hb with (hb | hb) | hb
    · exact hivAb b hb
    · exact htbA b hb
    · exact listXor_lt (ks key ivA) hksA 0 (ser r) hserb b hb
  have hallB : ∀ b ∈ ivB ++ tagFn key ivB (listXor (ks key ivB) 0 (ser r)) ++
      listXor (ks key ivB) 0 (ser r), b < 256 := by
    intro b hb
    simp only [List.mem_append] at hb
    rcases hb with (hb | hb) | hb
    · exact hivBb b hb
    · exact htbB b hb
    · exact listXor_lt (ks key ivB) hksB 0 (ser r) hserb b hb
  refine ⟨?_,
    decrypt_encrypt_eq ks tagFn ser parse key ivA r hivA hivAb hksA hserb htlenA htbA hr,
    decrypt_encrypt_eq ks tagFn ser parse key ivB r hivB hivBb hksB hserb htlenB htbB hr⟩
  intro heq
  have hd := congrArg base64Decode heq
  simp only [encrypt] at hd
  rw [base64Decode_base64Encode _ hallA, base64Decode_base64Encode _ hallB] at hd
  have ht := congrArg (List.take 12) hd
  rw [List.append_assoc, List.append_assoc] at ht
  rw [take_append_of_length _ _ 12 hivA, take_append_of_length _ _ 12 hivB] at ht
  exact hne ht

theorem C8_nonce_uniqueness_inst :
    encrypt ks0 tagFn0 ser0 key0 iv0 r0 ≠ encrypt ks0 tagFn0 ser0 key0 iv1 r0 :=
  (C8_nonce_uniqueness ks0 tagFn0 ser0 parse0 key0 iv0 iv1 r0 (by decide) (by decide)
    (by decide) (by decide) (by decide) (fun _ => by simp [ks0]) (fun _ => by simp [ks0])
    (by decide) (by decide) (by decide) (by decide) (by decide) (by decide)).1

/-- C3 counterexample: prepending `!` to a well-formed blob makes the
string invalid base64, yet `decrypt` still succeeds and returns the full
record, because `Buffer.from(b64, "base64")` silently skips a non-alphabet
character such as `!` instead of failing.  This falsifies the claim that
`decrypt` fails with `DecryptionError` exactly when (among the listed
conditions) the input is not valid base64. -/
theorem C3_counterexample_invalid_base64_decrypts :
    validBase64 ("!" ++ encrypt ks0 tagFn0 ser0 key0 iv0 r0) = false ∧
    decrypt ks0 tagFn0 parse0 key0 ("!" ++ encrypt ks0 tagFn0 ser0 key0 iv0 r0) = some r0 :=
  ⟨by decide, by decide⟩

/-- C3 amended: `decrypt` base64-decodes its input leniently — decoding
stops at the first `=`, and characters outside the standard or URL-safe
alphabet before that point are skipped, never rejected — and fails,
returning nothing at all, exactly when the leniently decoded form is
shorter than 28 bytes, or the 16-byte authentication tag recomputed from
the key, the nonce slice and the ciphertext slice does not match the
stored tag slice, or the deciphered bytes do not parse; otherwise it
returns precisely the parse of the full deciphered plaintext. -/
theorem C3_decrypt_failure_characterization
    (ks : List Nat → List Nat → Nat → Nat)
    (tagFn : List Nat → List Nat → List Nat → List Nat)
    (parse : List Nat → Option IntegrationCreds) (key : List Nat) (b64 : String)
    (hnil : parse [] = none)
    (htlen : (tagFn key ((base64Decode b64).take 12) ((base64Decode b64).drop 28)).length = 16) :
    (decrypt ks tagFn parse key b64 = none ↔
      ((base64Decode b64).length < 28 ∨
       tagFn key ((base64Decode b64).take 12) ((base64Decode b64).drop 28) ≠
         ((base64Decode b64).drop 12).take 16 ∨
       parse (listXor (ks key ((base64Decode b64).take 12)) 0 ((base64Decode b64).drop 28)) =
         none)) ∧
    (28 ≤ (base64Decode b64).length →
      tagFn key ((base64Decode b64).take 12) ((base64Decode b64).drop 28) =
        ((base64Decode b64).drop 12).take 16 →
      decrypt ks tagFn parse key b64 =
        parse (listXor (ks key ((base64Decode b64).take 12)) 0 ((base64Decode b64).drop 28))) := by
  simp only [decrypt]
  generalize hraw : base64Decode b64 = raw at htlen ⊢
  by_cases h28 : raw.length < 28
  · have hdata : raw.drop 28 = [] := List.drop_eq_nil_of_le (by omega)
    rw [hdata]
    simp only [listXor_nil, hnil]
    constructor
    · have hnone : (if (List.take 12 raw).length = 0 then none
          else if (List.take 16 (List.drop 12 raw)).length ∈ nistTagLens then
            if List.take (List.take 16 (List.drop 12 raw)).length (tagFn key (List.take 12 raw) []) =
                List.take 16 (List.drop 12 raw) then
              (none : Option IntegrationCreds)
            else none
          else none) = none := by
        split
        · rfl
        · split
          · split <;> rfl
          · rfl
      exact iff_of_true hnone (Or.inl h28)
    · intro hge _
      exact absurd hge (by omega)
  · have htake12 : (List.take 12 raw).length = 12 := by
      rw [List.length_take]; omega
    have htag16 : (List.take 16 (List.drop 12 raw)).length = 16 := by
      rw [List.length_take, List.length_drop]; omega
    rw [if_neg (show ¬ (List.take 12 raw).length = 0 from by omega)]
    have hmem : (List.take 16 (List.drop 12 raw)).length ∈ nistTagLens := by
      rw [htag16]; decide
    rw [if_pos hmem, htag16]
    rw [show List.take 16 (tagFn key (List.take 12 raw) (List.drop 28 raw)) =
        tagFn key (List.take 12 raw) (List.drop 28 raw) from by
      conv_lhs => rw [← htlen]
      exact List.take_length _]
    constructor
    · by_cases heq : tagFn key (List.take 12 raw) (List.drop 28 raw) =
          List.take 16 (List.drop 12 raw)
      · rw [if_pos heq]
        constructor
        · intro hp
          exact Or.inr (Or.inr hp)
        · intro h
          rcases h with h | h | h
          · exact absurd h (by omega)
          · exact absurd heq h
          · exact h
      · rw [if_neg heq]
        exact iff_of_true rfl (Or.inr (Or.inl heq))
    · intro _ htg
      rw [if_pos htg]

set_option maxRecDepth 4096 in
theorem C3_decrypt_failure_characterization_inst :
    decrypt ks0 tagFn0 parse0 key0 (encrypt ks0 tagFn0 ser0 key0 iv0 r0) =
      parse0 (listXor (ks0 key0 ((base64Decode (encrypt ks0 tagFn0 ser0 key0 iv0 r0)).take 12)) 0
        ((base64Decode (encrypt ks0 tagFn0 ser0 key0 iv0 r0)).drop 28)) :=
  (C3_decrypt_failure_characterization ks0 tagFn0 parse0 key0
      (encrypt ks0 tagFn0 ser0 key0 iv0 r0) (by decide) (by decide)).2 (by decide) (by decide)

/-- C9 counterexample: credentials for `"x"` exist with token
`"secret-token"`, yet a call whose `extraHeaders` carry an `Authorization`
entry reaches upstream with that entry instead of the bearer token — the
object spread `{ Authorization: ..., ...extraHeaders }` lets the caller
override the credential header, falsifying the claim that the stored token
is attached on every outgoing call. -/
theorem C9_counterexample_authorization_override :
    getCreds ks0 tagFn0 parse0 key0 storeX "x" = .ok r0 ∧
    waFetch ks0 tagFn0 parse0 key0 jsonId fetchEcho storeX "x" "/p" "GET" none
      [("Authorization", "custom")] = .ok "custom" ∧
    "custom" ≠ "Bearer " ++ r0.token :=
  ⟨by decide, by decide, by decide⟩

/-- C9 amended: the forwarder consults `getCreds` first and surfaces its
failure without depending on the upstream oracle; on success it issues one
request to the graph URL built from the stored API version, whose
`Authorization` header is `Bearer` followed by the stored token unless the
caller's `extraHeaders` override that key; and every non-2xx response
becomes an upstream error message carrying the method, URL, HTTP status and
response body, never a success. -/
theorem C9_waFetch_contract {J : Type}
    (ks : List Nat → List Nat → Nat → Nat)
    (tagFn : List Nat → List Nat → List Nat → List Nat)
    (parse : List Nat → Option IntegrationCreds) (key : List Nat)
    (jsonParse : String → Option J)
    (f : String → String → (String → Option String) → Option String → FetchResponse)
    (st : Store) (integrationId path method : String)
    (body : Option String) (extraHeaders : List (String × String)) :
    (getCreds ks tagFn parse key st integrationId = .notFound →
      waFetch ks tagFn parse key jsonParse f st integrationId path method body extraHeaders =
        .credsNotFound) ∧
    (getCreds ks tagFn parse key st integrationId = .decryptError →
      waFetch ks tagFn parse key jsonParse f st integrationId path method body extraHeaders =
        .credsDecryptError) ∧
    (∀ c, getCreds ks tagFn parse key st integrationId = .ok c →
      (extraHeaders.lookup "Authorization" = none →
        headersFor c.token extraHeaders "Authorization" = some ("Bearer " ++ c.token)) ∧
      (∀ status bodyText,
        f ("https://graph.facebook.com/" ++ c.version ++ path) method
            (headersFor c.token extraHeaders) body = ⟨status, bodyText⟩ →
        (¬(200 ≤ status ∧ status < 300) →
          waFetch ks tagFn parse key jsonParse f st integrationId path method body
              extraHeaders =
            .upstreamError (method ++ " " ++ ("https://graph.facebook.com/" ++ c.version ++ path)
              ++ " -> " ++ Nat.repr status ++ " " ++ bodyText)) ∧
        ((200 ≤ status ∧ status < 300) →
          waFetch ks tagFn parse key jsonParse f st integrationId path method body
              extraHeaders ≠
            .upstreamError (method ++ " " ++ ("https://graph.facebook.com/" ++ c.version ++ path)
              ++ " -> " ++ Nat.repr status ++ " " ++ bodyText)))) := by
  refine ⟨fun h => ?_, fun h => ?_, fun c hc => ⟨fun hlk => ?_, fun status bodyText hf => ⟨fun hbad => ?_, fun hok => ?_⟩⟩⟩
  · simp [waFetch, h]
  · simp [waFetch, h]
  · simp [headersFor, hlk]
  · simp only [waFetch, hc, hf]
    rw [if_neg hbad]
  · simp only [waFetch, hc, hf]
    rw [if_pos hok]
    cases jsonParse bodyText <;> simp

theorem C9_waFetch_contract_inst :
    waFetch ks0 tagFn0 parse0 key0 jsonId fetchEcho emptyStore "x" "/p" "GET" none [] =
      .credsNotFound :=
  (C9_waFetch_contract ks0 tagFn0 parse0 key0 jsonId fetchEcho emptyStore "x" "/p" "GET"
    none []).1 rfl
